import Mathlib

/-!
Shallow embedding of the event model of sentry/models/event.py
(EventCommon, SnubaEvent, Event) and of the external-issue-link
endpoint of sentry_app_installation_external_issues.py, together with
theorems settling the specification claims about them.

Python values that can appear in an event payload dictionary are
embedded as the inductive type Val; a Python dict is embedded as an
association list with unique keys, read through dictGet (first match,
mirroring dict lookup).  Python list.sort / sorted are stable sorts and
are embedded as List.insertionSort, which is stable.  Fallible Python
code (assertion failure, raised exception, IndexError) is embedded with
Option / Except results.
-/

/-- Embedding of the payload values a Python event dictionary can hold:
None, strings, numbers, lists and dictionaries. -/
inductive Val where
  | null : Val
  | str : String → Val
  | num : Nat → Val
  | arr : List Val → Val
  | obj : List (String × Val) → Val

/-- Python dict lookup d.get(k): first binding of the key, none when the
key is absent.  Embedded dicts carry each key at most once. -/
def dictGet (d : List (String × Val)) (k : String) : Option Val :=
  match d with
  | [] => none
  | (k2, v) :: rest => if k2 = k then some v else dictGet rest k

/-- Two-step nested lookup, embedding get_path(data, k1, k2) from
sentry.utils.safe for dictionary values. -/
def getPath2 (d : List (String × Val)) (k1 k2 : String) : Option Val :=
  match dictGet d k1 with
  | some (Val.obj kvs) => dictGet kvs k2
  | _ => none

/-- Python truthiness test on an embedded value: None, the empty string,
zero and empty containers are falsy. -/
def valFalsy : Val → Bool
  | Val.null => true
  | Val.str s => s = ""
  | Val.num n => n = 0
  | Val.arr l => l.isEmpty
  | Val.obj l => l.isEmpty

/-- Embedding of the Python 2 byte-wise string order used by sorted():
lexicographic order on the character lists of the two strings. -/
def listLexLE : List Char → List Char → Bool
  | [], _ => true
  | _ :: _, [] => false
  | a :: as, b :: bs => if a < b then true else if a = b then listLexLE as bs else false

/-- Python 2 order on optional strings: None sorts before every string. -/
def optStrLE (a b : Option String) : Bool :=
  match a, b with
  | none, _ => true
  | some _, none => false
  | some x, some y => listLexLE x.data y.data

/-- Python 2 tuple order on (key, value) tag pairs: by key, then by
value on equal keys. -/
def tagLE (p q : Option String × Option String) : Bool :=
  if p.1 = q.1 then optStrLE p.2 q.2 else optStrLE p.1 q.1

/-- The tag-pair order as a relation, for List.insertionSort. -/
def tagRel (p q : Option String × Option String) : Prop := tagLE p q = true

instance : DecidableRel tagRel := fun p q => by unfold tagRel; infer_instance

/-- Order on payload items by key, embedding sorted(six.iteritems(data))
in as_dict; on the unique keys of a dict the tuple comparison never
reaches the values, so the key order alone is faithful. -/
def keyRel (p q : String × Val) : Prop := listLexLE p.1.data q.1.data = true

instance : DecidableRel keyRel := fun p q => by unfold keyRel; infer_instance

/-- Modelled from the spec: the hashlib.md5 digest used for node ids and
for the sampling decision.  The Python primitive is outside this
repository; the spec only requires a deterministic digest of the input
string, embedded here as a concrete deterministic fold. -/
def md5Nat (s : String) : Nat :=
  s.foldl (fun h c => (h * 131 + c.toNat + 1) % 2 ^ 128) 5381

/-- Hex rendering of the modelled digest, standing for md5(...).hexdigest(). -/
def md5Hexdigest (s : String) : String :=
  ⟨Nat.toDigits 16 (md5Nat s)⟩

namespace EventCommon

/-- EventCommon.generate_node_id: the deterministic node id of an event,
the hex digest of the string project_id ":" event_id. -/
def generate_node_id (project_id : Nat) (event_id : String) : String :=
  md5Hexdigest (toString project_id ++ ":" ++ event_id)

end EventCommon

/-- _should_skip_to_python(event_data): the renormalization decision.
A missing or falsy event_id decides False; a zero sampling rate decides
False; otherwise the decision hashes the event id, so it is stable per
event id.  The md5 primitive only accepts strings, so a non-string
truthy event id (never produced by normalized payloads) is embedded as
False as well. -/
def _should_skip_to_python (event_data : List (String × Val)) (sample_rate : ℚ) : Bool :=
  match dictGet event_data "event_id" with
  | none => false
  | some v =>
    if valFalsy v then false
    else if sample_rate = 0 then false
    else
      match v with
      | Val.str s => decide (((md5Nat s % 10 ^ 8 : ℕ) : ℚ) ≤ sample_rate * 10 ^ 8)
      | _ => false

namespace EventDict

/-- EventDict.__init__: renormalizes the payload through the external
StoreNormalizer exactly when _should_skip_to_python decides True.  The
normalizer is an external collaborator, passed as a function; the Bool
component records the rust_renormalized flag the constructor computes. -/
def init (data : List (String × Val)) (sample_rate : ℚ)
    (normalizer : List (String × Val) → List (String × Val)) :
    List (String × Val) × Bool :=
  let rust_renormalized := _should_skip_to_python data sample_rate
  (if rust_renormalized then normalizer data else data, rust_renormalized)

end EventDict

namespace EventCommon

/-- EventCommon.get_interfaces: the rust_renormalized flag it passes to
the external interface parser, which is the renormalization decision on
the payload. -/
def get_interfaces_flag (data : List (String × Val)) (sample_rate : ℚ) : Bool :=
  _should_skip_to_python data sample_rate

end EventCommon

/-- Mutual-containment test on key lists, embedding the Python
set(keys) == set(selected_columns) comparison of SnubaEvent.__init__. -/
def sameKeySet (a b : List String) : Bool :=
  a.all (fun k => decide (k ∈ b)) && b.all (fun k => decide (k ∈ a))

namespace SnubaEvent

/-- SnubaEvent.selected_columns: the fixed list of columns requested
from snuba. -/
def selected_columns : List String :=
  ["event_id", "project_id", "message", "title", "type", "location",
   "culprit", "timestamp", "group_id", "platform",
   "tags.key", "tags.value",
   "user_id", "username", "ip_address", "email"]

/-- SnubaEvent.__init__: asserts that the key set of the supplied row
equals the expected column set and binds the row as the instance
dictionary; the failed assertion is embedded as none. -/
def init (snuba_values : List (String × Val)) : Option (List (String × Val)) :=
  if sameKeySet (snuba_values.map Prod.fst) selected_columns then some snuba_values
  else none

/-- SnubaEvent.save: raises NotImplementedError unconditionally. -/
def save (_row : List (String × Val)) : Except String Unit :=
  Except.error "NotImplementedError"

/-- SnubaEvent.next_event: always None. -/
def next_event (_row : List (String × Val)) : Option (List (String × Val)) :=
  none

/-- SnubaEvent.prev_event: always None. -/
def prev_event (_row : List (String × Val)) : Option (List (String × Val)) :=
  none

/-- SnubaEvent.id: returns the event_id attribute bound from the row;
a snuba event never has a relational row id. -/
def idOf (row : List (String × Val)) : Option Val :=
  dictGet row "event_id"

end SnubaEvent

/-- Modelled from the spec: one raw entry of the payload tag list as
seen by EventCommon.tags.  The helper get_path(data, tags, filter=True)
(sentry.utils.safe, not under src) drops entries that are None; a
well-formed entry is a (key, value) pair whose components may each be
None; any other entry fails the 2-tuple unpacking with ValueError. -/
inductive TagItem where
  | null : TagItem
  | pair : Option String → Option String → TagItem
  | malformed : TagItem
deriving DecidableEq

/-- Whether a raw tag entry fails 2-tuple unpacking. -/
def TagItem.isMalformed : TagItem → Bool
  | TagItem.malformed => true
  | _ => false

/-- The (key, value) pair of a well-formed raw tag entry. -/
def TagItem.pairOf : TagItem → Option (Option String × Option String)
  | TagItem.pair k v => some (k, v)
  | _ => none

namespace EventCommon

/-- EventCommon.tags: sorts the well-formed (key, value) pairs of the
raw tag list, dropping pairs with a None key or None value; a missing
tag list yields the empty sequence, and a ValueError raised by a
malformed entry is caught and yields the empty sequence. -/
def tags (raw : Option (List TagItem)) : List (Option String × Option String) :=
  match raw with
  | none => []
  | some items =>
    let present := items.filter (fun i => !(i == TagItem.null))
    if present.any TagItem.isMalformed then []
    else
      List.insertionSort tagRel
        ((present.filterMap TagItem.pairOf).filter
          (fun p => p.1.isSome && p.2.isSome))

end EventCommon

namespace SnubaEvent

/-- SnubaEvent.tags: zips the tags.key and tags.value columns of the
row and sorts the pairs; when either column is missing or empty, or the
two have different lengths, the empty sequence is returned. -/
def tags (keys values : Option (List (Option String))) :
    List (Option String × Option String) :=
  match keys, values with
  | some ks, some vs =>
    if ks.isEmpty || vs.isEmpty then []
    else if ks.length = vs.length then List.insertionSort tagRel (ks.zip vs)
    else []
  | _, _ => []

end SnubaEvent

/-- A row of the relational event table, with the columns the neighbor
lookup of Event reads. -/
structure PgEvent where
  id : Nat
  group_id : Nat
  datetime : Nat
deriving DecidableEq

/-- The order the window query requests from the store: ascending
datetime (ties are broken by the store arbitrarily; insertion sort
keeps the submitted order on ties). -/
def dtRel (a b : PgEvent) : Prop := a.datetime ≤ b.datetime

instance : DecidableRel dtRel := fun a b => by unfold dtRel; infer_instance

/-- Modelled from the spec: EVENT_ORDERING_KEY (sentry.constants, not
under src), the composite (datetime, id) ordering used to sort the
fetched window locally. -/
def orderKeyRel (a b : PgEvent) : Prop :=
  a.datetime < b.datetime ∨ (a.datetime = b.datetime ∧ a.id ≤ b.id)

instance : DecidableRel orderKeyRel := fun a b => by unfold orderKeyRel; infer_instance

namespace Event

/-- The bounded window Event.next_event fetches: rows of the same group
with datetime at or after the current one, the current row excluded,
ordered by datetime, limited to 5 rows. -/
def neighborWindow (db : List PgEvent) (e : PgEvent) : List PgEvent :=
  (List.insertionSort dtRel
    (db.filter (fun x =>
      decide (e.datetime ≤ x.datetime) && decide (x.group_id = e.group_id)
        && decide (x.id ≠ e.id)))).take 5

/-- Event.next_event: filters the fetched window to rows strictly after
the current (datetime, id) pair under the composite ordering, sorts by
that ordering and returns the first row, or None when none qualifies. -/
def next_event (db : List PgEvent) (e : PgEvent) : Option PgEvent :=
  let events := (neighborWindow db e).filter (fun x =>
    (decide (x.datetime = e.datetime) && decide (e.id < x.id))
      || decide (e.datetime < x.datetime))
  (List.insertionSort orderKeyRel events).head?

/-- The bounded window Event.prev_event fetches: rows of the same group
with datetime at or before the current one, the current row excluded,
ordered by descending datetime, limited to 5 rows. -/
def prevWindow (db : List PgEvent) (e : PgEvent) : List PgEvent :=
  (List.insertionSort (fun a b => dtRel b a)
    (db.filter (fun x =>
      decide (x.datetime ≤ e.datetime) && decide (x.group_id = e.group_id)
        && decide (x.id ≠ e.id)))).take 5

/-- Event.prev_event: filters the fetched window to rows strictly before
the current (datetime, id) pair under the composite ordering, sorts by
that ordering descending and returns the first row. -/
def prev_event (db : List PgEvent) (e : PgEvent) : Option PgEvent :=
  let events := (prevWindow db e).filter (fun x =>
    (decide (x.datetime = e.datetime) && decide (x.id < e.id))
      || decide (x.datetime < e.datetime))
  (List.insertionSort (fun a b => orderKeyRel b a) events).head?

end Event

instance : DecidableRel (fun a b => dtRel b a) := fun a b => by unfold dtRel; infer_instance

instance : DecidableRel (fun a b => orderKeyRel b a) := fun a b => by unfold orderKeyRel; infer_instance

/-- The hash list computed when no stored hashes exist: the hashes of
all grouping variants returned by the external resolver, in resolver
order, with None and empty hashes filtered out (Python filter(None, ...)
drops falsy values).  The resolver (sentry.grouping.api, an external
collaborator) is embedded as its ordered variant-name to hash mapping. -/
def computedHashes (variants : List (String × Option String)) : Val :=
  Val.arr ((((variants.map Prod.snd).filterMap id).filter
    (fun s => !(s == ""))).map Val.str)

namespace EventCommon

/-- EventCommon.get_hashes: the stored payload value under the key
hashes when it is present and not None, otherwise the hashes computed
from the grouping variants. -/
def get_hashes (data : List (String × Val)) (variants : List (String × Option String)) : Val :=
  match dictGet data "hashes" with
  | some Val.null => computedHashes variants
  | some v => v
  | none => computedHashes variants

/-- EventCommon.get_primary_hash: element 0 of get_hashes(); the
IndexError raised on an empty hash list (and the type error raised when
the stored value is not indexable) is embedded as none. -/
def get_primary_hash (data : List (String × Val))
    (variants : List (String × Option String)) : Option Val :=
  match get_hashes data variants with
  | Val.arr l => l.head?
  | _ => none

end EventCommon

/-- Embedding of Python str.split(sep, 1)[-1] for sep "sentry:": the
part after the first occurrence of the separator, or the whole string
when the separator does not occur. -/
def splitSentry (k : String) : String :=
  match k.splitOn "sentry:" with
  | [] => k
  | [_] => k
  | _ :: rest => String.intercalate "sentry:" rest

/-- A raw payload tag entry read back as a TagItem, connecting the
payload encoding to the tag model: a None entry, a 2-element list whose
components are strings or None, or a malformed entry. -/
def tagItemOfVal : Val → TagItem
  | Val.null => TagItem.null
  | Val.arr [Val.str k, Val.str v] => TagItem.pair (some k) (some v)
  | Val.arr [Val.str k, Val.null] => TagItem.pair (some k) none
  | Val.arr [Val.null, Val.str v] => TagItem.pair none (some v)
  | Val.arr [Val.null, Val.null] => TagItem.pair none none
  | _ => TagItem.malformed

/-- The raw tag list of a payload dictionary as EventCommon.tags reads
it: the list under the key tags, absent when the key is missing or does
not hold a list. -/
def rawTagsOf (data : List (String × Val)) : Option (List TagItem) :=
  match dictGet data "tags" with
  | some (Val.arr items) => some (items.map tagItemOfVal)
  | _ => none

/-- The embedded tag value of an optional string: None or the string. -/
def valOfOptStr : Option String → Val
  | some s => Val.str s
  | none => Val.null

namespace EventCommon

/-- EventCommon.get_tag(key): the value of the first sorted tag pair
whose key matches, None when no tag matches. -/
def get_tag (data : List (String × Val)) (key : String) : Val :=
  match (tags (rawTagsOf data)).find? (fun p => p.1 = some key) with
  | some p => valOfOptStr p.2
  | none => Val.null

/-- EventCommon.real_message: the formatted log entry, else the raw log
entry message, else the empty string (Python or-chains on truthiness). -/
def real_message (data : List (String × Val)) : Val :=
  match getPath2 data "logentry" "formatted" with
  | some v =>
    if valFalsy v then
      match getPath2 data "logentry" "message" with
      | some w => if valFalsy w then Val.str "" else w
      | none => Val.str ""
    else v
  | none =>
    match getPath2 data "logentry" "message" with
    | some w => if valFalsy w then Val.str "" else w
    | none => Val.str ""

end EventCommon

/-- The fields of a relational event that as_dict reads: the stored
columns, the raw payload dictionary, and the values supplied by
external collaborators (the culprit of the owning group, and the title
and location computed by the event-type strategy, both outside src). -/
structure EventM where
  event_id : String
  project_id : Nat
  platform : Val
  datetime : Val
  time_spent : Val
  data : List (String × Val)
  group_culprit : Val
  titleV : Val
  locationV : Val

/-- The serialized tags entry of as_dict: each sorted tag pair with the
sentry: prefix split off its key. -/
def tagsVal (data : List (String × Val)) : Val :=
  Val.arr ((EventCommon.tags (rawTagsOf data)).map (fun p =>
    Val.arr [valOfOptStr (p.1.map splitSentry), valOfOptStr p.2]))

/-- The nine first-class entries as_dict inserts first, in order. -/
def initialDict (e : EventM) : List (String × Val) :=
  [("event_id", Val.str e.event_id),
   ("project", Val.num e.project_id),
   ("release", EventCommon.get_tag e.data "sentry:release"),
   ("dist", EventCommon.get_tag e.data "sentry:dist"),
   ("platform", e.platform),
   ("message", EventCommon.real_message e.data),
   ("datetime", e.datetime),
   ("time_spent", e.time_spent),
   ("tags", tagsVal e.data)]

/-- The keys of the nine first-class entries, in insertion order. -/
def firstClassKeys : List String :=
  ["event_id", "project", "release", "dist", "platform", "message",
   "datetime", "time_spent", "tags"]

/-- The redaction applied to the sdk value: the client_ip sub-field is
dropped from the dictionary; iterating a non-dictionary raises in
Python, embedded as none. -/
def procSdk : Val → Option Val
  | Val.obj kvs => some (Val.obj (kvs.filter (fun q => !(q.1 == "client_ip"))))
  | _ => none

/-- The payload loop of as_dict: each item whose key is not yet in the
ordered dictionary is appended, the sdk value redacted on the way;
remaining items with an already-present key are skipped. -/
def addRemaining (d : List (String × Val)) : List (String × Val) → Option (List (String × Val))
  | [] => some d
  | (k, v) :: rest =>
    if k ∈ d.map Prod.fst then addRemaining d rest
    else if k = "sdk" then
      match procSdk v with
      | some v2 => addRemaining (d ++ [(k, v2)]) rest
      | none => none
    else addRemaining (d ++ [(k, v)]) rest

/-- Assignment on the ordered dictionary: an existing key keeps its
position and gets the new value, a new key is appended at the end. -/
def odSet (d : List (String × Val)) (k : String) (v : Val) : List (String × Val) :=
  if k ∈ d.map Prod.fst then d.map (fun p => if p.1 = k then (k, v) else p)
  else d ++ [(k, v)]

/-- The payload items in the order the as_dict loop visits them:
sorted ascending. -/
def sortedItems (data : List (String × Val)) : List (String × Val) :=
  List.insertionSort keyRel data

/-- The culprit fallback of as_dict: when the built dictionary has no
culprit entry or a None one, the culprit of the owning group is
assigned; otherwise the dictionary is unchanged. -/
def culpritStep (d : List (String × Val)) (culprit : Val) : List (String × Val) :=
  match dictGet d "culprit" with
  | none => odSet d "culprit" culprit
  | some Val.null => odSet d "culprit" culprit
  | some _ => d

namespace EventCommon

/-- EventCommon.as_dict: the ordered external representation, built
from the nine first-class entries, then the remaining payload items in
sorted key order with the sdk value redacted, then the group culprit
when the culprit entry is absent or None, then the title and location
overrides. -/
def as_dict (e : EventM) : Option (List (String × Val)) :=
  match addRemaining (initialDict e) (sortedItems e.data) with
  | none => none
  | some d1 =>
    some (odSet (odSet (culpritStep d1 e.group_culprit) "title" e.titleV)
      "location" e.locationV)

end EventCommon

/-- The keys of the sorted payload items that are not first-class keys:
the claim about the tail of the as_dict key order is stated with this
list. -/
def remainingKeys (e : EventM) : List String :=
  ((sortedItems e.data).map Prod.fst).filter (fun k => !(decide (k ∈ firstClassKeys)))

/-- A concrete event whose raw payload carries an sdk sub-object with a
client_ip sub-field, used to evaluate the serialization claims. -/
def sampleEvent : EventM :=
  ⟨"e1", 7, Val.null, Val.null, Val.null,
   [("sdk", Val.obj [("client_ip", Val.str "ip"), ("name", Val.str "sentry.python")])],
   Val.null, Val.null, Val.null⟩

/-- The inputs the external-issue endpoint handler reads: the feature
gate decision, the request body, the outcome of the group lookup and
the outcome of the downstream issue-link creator (none embeds a raised
exception). -/
structure IssueLinkRequest where
  feature_enabled : Bool
  body : List (String × Val)
  group_found : Bool
  creator_result : Option Val

/-- The observable outcome of the handler: the response status and
whether the downstream creator was invoked. -/
structure EndpointResponse where
  status : Nat
  creator_invoked : Bool
deriving DecidableEq

/-- The required body fields of the external-issue creation endpoint. -/
def requiredFields : List String := ["groupId", "action", "uri"]

/-- SentryAppInstallationExternalIssuesEndpoint.post: 404 when the
feature gate fails, 400 when a required body field is missing, 404 when
the group lookup fails, and otherwise the downstream creator runs, its
exception caught as a 400 and its result serialized as a 200. -/
def external_issues_post (r : IssueLinkRequest) : EndpointResponse :=
  if !r.feature_enabled then ⟨404, false⟩
  else if !(requiredFields.all (fun k => decide (k ∈ r.body.map Prod.fst))) then ⟨400, false⟩
  else if !r.group_found then ⟨404, false⟩
  else
    match r.creator_result with
    | none => ⟨400, true⟩
    | some _ => ⟨200, true⟩

theorem listLexLE_total : ∀ a b : List Char, listLexLE a b = true ∨ listLexLE b a = true
  | [], _ => Or.inl rfl
  | _ :: _, [] => Or.inr rfl
  | a :: as, b :: bs => by
    by_cases hlt : a < b
    · left; simp [listLexLE, hlt]
    · by_cases heq : a = b
      · subst heq
        rcases listLexLE_total as bs with h | h
        · left; simp [listLexLE, h]
        · right; simp [listLexLE, h]
      · have hblt : b < a := by
          rcases lt_trichotomy a b with h | h | h
          · exact absurd h hlt
          · exact absurd h heq
          · exact h
        right; simp [listLexLE, hblt]

theorem listLexLE_trans :
    ∀ a b c : List Char, listLexLE a b = true → listLexLE b c = true → listLexLE a c = true
  | [], _, _, _, _ => rfl
  | _ :: _, [], _, h, _ => by simp [listLexLE] at h
  | _ :: _, _ :: _, [], _, h => by simp [listLexLE] at h
  | a :: as, b :: bs, c :: cs, h1, h2 => by
    simp only [listLexLE] at h1 h2 ⊢
    by_cases hab : a < b
    · by_cases hbc : b < c
      · simp [lt_trans hab hbc]
      · by_cases hbc2 : b = c
        · subst hbc2; simp [hab]
        · simp [hbc, hbc2] at h2
    · by_cases hab2 : a = b
      · subst hab2
        by_cases hbc : a < c
        · simp [hbc]
        · by_cases hbc2 : a = c
          · subst hbc2
            simp only [lt_irrefl, if_false, if_pos rfl] at h1 h2 ⊢
            exact listLexLE_trans as bs cs h1 h2
          · simp [hbc, hbc2] at h2
      · simp [hab, hab2] at h1

theorem listLexLE_antisymm :
    ∀ a b : List Char, listLexLE a b = true → listLexLE b a = true → a = b
  | [], [], _, _ => rfl
  | [], _ :: _, _, h => by simp [listLexLE] at h
  | _ :: _, [], h, _ => by simp [listLexLE] at h
  | a :: as, b :: bs, h1, h2 => by
    simp only [listLexLE] at h1 h2
    by_cases hab : a < b
    · by_cases hba : b < a
      · exact absurd hba (lt_asymm hab)
      · by_cases hba2 : b = a
        · exact absurd hba2.symm (ne_of_lt hab)
        · simp [hba, hba2] at h2
    · by_cases hab2 : a = b
      · subst hab2
        simp only [lt_irrefl, if_false, if_pos rfl] at h1 h2
        rw [listLexLE_antisymm as bs h1 h2]
      · simp [hab, hab2] at h1

theorem optStrLE_total (a b : Option String) : optStrLE a b = true ∨ optStrLE b a = true := by
  cases a with
  | none => exact Or.inl rfl
  | some x =>
    cases b with
    | none => exact Or.inr rfl
    | some y => exact listLexLE_total x.data y.data

theorem optStrLE_trans (a b c : Option String)
    (h1 : optStrLE a b = true) (h2 : optStrLE b c = true) : optStrLE a c = true := by
  cases a with
  | none => rfl
  | some x =>
    cases b with
    | none => exact absurd h1 (by simp [optStrLE])
    | some y =>
      cases c with
      | none => exact absurd h2 (by simp [optStrLE])
      | some z => exact listLexLE_trans x.data y.data z.data h1 h2

theorem optStrLE_antisymm (a b : Option String)
    (h1 : optStrLE a b = true) (h2 : optStrLE b a = true) : a = b := by
  cases a with
  | none =>
    cases b with
    | none => rfl
    | some y => exact absurd h2 (by simp [optStrLE])
  | some x =>
    cases b with
    | none => exact absurd h1 (by simp [optStrLE])
    | some y =>
      have hd : x.data = y.data := listLexLE_antisymm x.data y.data h1 h2
      cases x; cases y
      simp only at hd
      rw [hd]

theorem tagLE_total : ∀ p q : Option String × Option String, tagLE p q = true ∨ tagLE q p = true := by
  intro p q
  unfold tagLE
  by_cases h : p.1 = q.1
  · rw [if_pos h, if_pos h.symm]
    exact optStrLE_total p.2 q.2
  · have h2 : ¬ q.1 = p.1 := fun e => h e.symm
    rw [if_neg h, if_neg h2]
    exact optStrLE_total p.1 q.1

theorem tagLE_trans : ∀ p q r : Option String × Option String,
    tagLE p q = true → tagLE q r = true → tagLE p r = true := by
  intro p q r h1 h2
  unfold tagLE at h1 h2 ⊢
  by_cases hpq : p.1 = q.1
  · by_cases hqr : q.1 = r.1
    · rw [if_pos hpq] at h1
      rw [if_pos hqr] at h2
      rw [if_pos (hpq.trans hqr)]
      exact optStrLE_trans p.2 q.2 r.2 h1 h2
    · have hpr : ¬ p.1 = r.1 := by rw [hpq]; exact hqr
      rw [if_neg hqr] at h2
      rw [if_neg hpr, hpq]
      exact h2
  · by_cases hqr : q.1 = r.1
    · have hpr : ¬ p.1 = r.1 := by rw [← hqr]; exact hpq
      rw [if_neg hpq] at h1
      rw [if_neg hpr, ← hqr]
      exact h1
    · rw [if_neg hpq] at h1
      rw [if_neg hqr] at h2
      by_cases hpr : p.1 = r.1
      · exact absurd (optStrLE_antisymm q.1 p.1 (hpr ▸ h2) h1).symm hpq
      · rw [if_neg hpr]
        exact optStrLE_trans p.1 q.1 r.1 h1 h2

/-- C8: generate_node_id is a pure deterministic function of the
(project_id, event_id) pair: calling it twice yields the identical key,
two equal pairs resolve to the same key, and the key is the digest of
the string project_id ":" event_id. -/
theorem generate_node_id_deterministic (p : Nat) (e : String) :
    EventCommon.generate_node_id p e = EventCommon.generate_node_id p e
    ∧ (∀ p2 e2, p = p2 → e = e2 →
        EventCommon.generate_node_id p e = EventCommon.generate_node_id p2 e2)
    ∧ EventCommon.generate_node_id p e = md5Hexdigest (toString p ++ ":" ++ e) :=
  ⟨rfl, fun _ _ hp he => by rw [hp, he], rfl⟩

theorem generate_node_id_deterministic_witness :
    EventCommon.generate_node_id 42 "deadbeef" = EventCommon.generate_node_id 42 "deadbeef" :=
  (generate_node_id_deterministic 42 "deadbeef").2.1 42 "deadbeef" rfl rfl

/-- C10: when the event_id field of the payload is missing or falsy, or
when the sampling rate is 0, the renormalization decision is False, the
EventDict constructor leaves the payload unchanged with the flag False,
and get_interfaces passes the flag False to the interface parser. -/
theorem renormalization_gate_false (data : List (String × Val)) (rate : ℚ)
    (normalizer : List (String × Val) → List (String × Val))
    (h : dictGet data "event_id" = none
        ∨ (∃ v, dictGet data "event_id" = some v ∧ valFalsy v = true)
        ∨ rate = 0) :
    _should_skip_to_python data rate = false
    ∧ EventDict.init data rate normalizer = (data, false)
    ∧ EventCommon.get_interfaces_flag data rate = false := by
  have hskip : _should_skip_to_python data rate = false := by
    unfold _should_skip_to_python
    rcases h with h | ⟨v, hv, hf⟩ | h
    · rw [h]
    · rw [hv]; simp [hf]
    · cases hd : dictGet data "event_id" with
      | none => rfl
      | some v =>
        by_cases hf : valFalsy v
        · simp [hf]
        · simp [hf, h]
  refine ⟨hskip, ?_, hskip⟩
  unfold EventDict.init
  rw [hskip]
  simp

theorem renormalization_gate_false_witness :
    _should_skip_to_python [] 1 = false
    ∧ EventDict.init [] 1 id = ([], false)
    ∧ EventCommon.get_interfaces_flag [] 1 = false :=
  renormalization_gate_false [] 1 id (Or.inl rfl)

/-- C6: a snuba-backed event is read-only: save raises
NotImplementedError unconditionally, next_event and prev_event are
always None, and id is the event_id attribute itself. -/
theorem snuba_event_readonly (row : List (String × Val)) :
    SnubaEvent.save row = Except.error "NotImplementedError"
    ∧ SnubaEvent.next_event row = none
    ∧ SnubaEvent.prev_event row = none
    ∧ SnubaEvent.idOf row = dictGet row "event_id" :=
  ⟨rfl, rfl, rfl, rfl⟩

/-- C3: constructing a SnubaEvent from a row missing any expected
column fails the construction-time assertion, and constructing from a
row whose key set equals the expected column set succeeds. -/
theorem snuba_init_column_set (row : List (String × Val)) (c : String)
    (hc : c ∈ SnubaEvent.selected_columns) (hmiss : c ∉ row.map Prod.fst) :
    SnubaEvent.init row = none
    ∧ ∀ row2 : List (String × Val),
        sameKeySet (row2.map Prod.fst) SnubaEvent.selected_columns = true →
        (SnubaEvent.init row2).isSome = true := by
  constructor
  · unfold SnubaEvent.init
    have hks : sameKeySet (row.map Prod.fst) SnubaEvent.selected_columns = false := by
      unfold sameKeySet
      have : (SnubaEvent.selected_columns.all fun k => decide (k ∈ row.map Prod.fst)) = false := by
        rw [List.all_eq_false]
        exact ⟨c, hc, by simpa using hmiss⟩
      rw [this, Bool.and_false]
    rw [hks]
    rfl
  · intro row2 h2
    unfold SnubaEvent.init
    rw [h2]
    rfl

theorem snuba_init_column_set_witness :
    SnubaEvent.init [] = none
    ∧ (SnubaEvent.init (SnubaEvent.selected_columns.map (fun c => (c, Val.null)))).isSome
        = true :=
  ⟨(snuba_init_column_set [] "event_id" (by decide) (by simp)).1,
   (snuba_init_column_set [] "event_id" (by decide) (by simp)).2
     (SnubaEvent.selected_columns.map (fun c => (c, Val.null))) (by decide)⟩

/-- C2: get_hashes returns the stored payload hashes unmodified
whenever the payload holds them (non-None), and otherwise returns the
variant hashes with None and empty hashes filtered out; the computed
list is a sublist of the full resolver hash list, so resolver order is
preserved. -/
theorem get_hashes_stored_or_computed :
    (∀ (data : List (String × Val)) (variants : List (String × Option String)) (v : Val),
        dictGet data "hashes" = some v → v ≠ Val.null →
        EventCommon.get_hashes data variants = v)
    ∧ (∀ (data : List (String × Val)) (variants : List (String × Option String)),
        dictGet data "hashes" = none →
        EventCommon.get_hashes data variants = computedHashes variants)
    ∧ (∀ variants : List (String × Option String),
        (((variants.map Prod.snd).filterMap id).filter (fun s => !(s == ""))).Sublist
          ((variants.map Prod.snd).filterMap id)) := by
  refine ⟨?_, ?_, ?_⟩
  · intro data variants v hv hnn
    unfold EventCommon.get_hashes
    rw [hv]
    cases v with
    | null => exact absurd rfl hnn
    | str s => rfl
    | num n => rfl
    | arr l => rfl
    | obj l => rfl
  · intro data variants h
    unfold EventCommon.get_hashes
    rw [h]
  · intro variants
    exact List.filter_sublist _

theorem get_hashes_stored_or_computed_witness :
    EventCommon.get_hashes [("hashes", Val.arr [Val.str "h"])] [] = Val.arr [Val.str "h"]
    ∧ EventCommon.get_hashes [] [("app", some "x")] = computedHashes [("app", some "x")] :=
  ⟨get_hashes_stored_or_computed.1 _ _ _ rfl (fun h => Val.noConfusion h),
   get_hashes_stored_or_computed.2.1 _ _ rfl⟩

/-- C7: get_primary_hash is element 0 of get_hashes: on an empty hash
list the IndexError propagates (embedded as none), and on a non-empty
list the first hash is returned. -/
theorem get_primary_hash_first_or_error (data : List (String × Val))
    (variants : List (String × Option String)) :
    (EventCommon.get_hashes data variants = Val.arr [] →
      EventCommon.get_primary_hash data variants = none)
    ∧ (∀ h t, EventCommon.get_hashes data variants = Val.arr (h :: t) →
        EventCommon.get_primary_hash data variants = some h) := by
  constructor
  · intro hh
    unfold EventCommon.get_primary_hash
    rw [hh]
    rfl
  · intro h t hh
    unfold EventCommon.get_primary_hash
    rw [hh]
    rfl

theorem get_primary_hash_first_or_error_witness :
    EventCommon.get_primary_hash [("hashes", Val.arr [])] [] = none
    ∧ EventCommon.get_primary_hash [("hashes", Val.arr [Val.str "a"])] [] = some (Val.str "a") :=
  ⟨(get_primary_hash_first_or_error _ _).1 rfl,
   (get_primary_hash_first_or_error _ _).2 (Val.str "a") [] rfl⟩

/-- C9 counterexample: a creation request whose body is missing every
required field but whose feature gate fails is answered with 404, not
with the claimed status 400 (the creator is still not invoked). -/
theorem external_issues_feature_gate_counterexample :
    ("groupId" ∉ (([] : List (String × Val)).map Prod.fst))
    ∧ external_issues_post ⟨false, [], false, none⟩ = ⟨404, false⟩
    ∧ (external_issues_post ⟨false, [], false, none⟩).status ≠ 400 :=
  ⟨by simp, rfl, by decide⟩

/-- C9 as amended: when the feature gate passes, a creation request
missing any required body field is answered 400 without invoking the
downstream creator; when the gate fails, the endpoint answers 404,
likewise without invoking the creator. -/
theorem external_issues_missing_field_400 (r : IssueLinkRequest)
    (hmiss : ∃ k ∈ requiredFields, k ∉ r.body.map Prod.fst) :
    (r.feature_enabled = true → external_issues_post r = ⟨400, false⟩)
    ∧ (r.feature_enabled = false → external_issues_post r = ⟨404, false⟩) := by
  obtain ⟨k, hk, hnk⟩ := hmiss
  constructor
  · intro hf
    unfold external_issues_post
    rw [hf]
    have hall : (requiredFields.all fun k => decide (k ∈ r.body.map Prod.fst)) = false := by
      rw [List.all_eq_false]
      exact ⟨k, hk, by simpa using hnk⟩
    rw [hall]
    rfl
  · intro hf
    unfold external_issues_post
    rw [hf]
    rfl

theorem external_issues_missing_field_400_witness :
    external_issues_post ⟨true, [], true, none⟩ = ⟨400, false⟩
    ∧ external_issues_post ⟨false, [], true, none⟩ = ⟨404, false⟩ :=
  ⟨(external_issues_missing_field_400 ⟨true, [], true, none⟩
      ⟨"groupId", by decide, by simp⟩).1 rfl,
   (external_issues_missing_field_400 ⟨false, [], true, none⟩
      ⟨"groupId", by decide, by simp⟩).2 rfl⟩

/-- C4: the neighbor window is bounded to 5 rows, and for three events
of one group at timestamps T, T, T+1 with ids 1, 2, 3, the next event
of id 1 is id 2 (same timestamp, greater id under the composite
(datetime, id) ordering), not id 3. -/
theorem next_event_tie_break :
    (∀ (db : List PgEvent) (e : PgEvent), (Event.neighborWindow db e).length ≤ 5)
    ∧ Event.next_event [⟨1, 7, 100⟩, ⟨2, 7, 100⟩, ⟨3, 7, 101⟩] ⟨1, 7, 100⟩
        = some ⟨2, 7, 100⟩
    ∧ Event.next_event [⟨1, 7, 100⟩, ⟨2, 7, 100⟩, ⟨3, 7, 101⟩] ⟨1, 7, 100⟩
        ≠ some ⟨3, 7, 101⟩ := by
  refine ⟨?_, by decide, by decide⟩
  intro db e
  unfold Event.neighborWindow
  exact List.length_take_le _ _

/-- C1 counterexample: a snuba row with non-empty tag columns of equal
length holding a None key and a None value yields a tag pair whose key
and value are None, so the claimed None-exclusion fails for the
analytical variant. -/
theorem snuba_tags_none_pair_counterexample :
    ¬ (∀ p ∈ SnubaEvent.tags (some [none]) (some [none]),
        p.1 ≠ none ∧ p.2 ≠ none) := by
  intro h
  have hm : ((none : Option String), (none : Option String))
      ∈ SnubaEvent.tags (some [none]) (some [none]) := by decide
  exact (h (none, none) hm).1 rfl

/-- C1 as amended: the relational variant returns tags sorted ascending
by key then value with all None keys and values excluded; the
analytical variant returns tags sorted ascending by key then value but
does not exclude None entries. -/
theorem tags_sorted_both_variants :
    (∀ raw : Option (List TagItem),
      (EventCommon.tags raw).Sorted tagRel
      ∧ ∀ p ∈ EventCommon.tags raw, p.1 ≠ none ∧ p.2 ≠ none)
    ∧ (∀ keys values : Option (List (Option String)),
        (SnubaEvent.tags keys values).Sorted tagRel) := by
  haveI htot : IsTotal (Option String × Option String) tagRel := ⟨tagLE_total⟩
  haveI htr : IsTrans (Option String × Option String) tagRel := ⟨tagLE_trans⟩
  constructor
  · intro raw
    constructor
    · unfold EventCommon.tags
      cases raw with
      | none => exact List.sorted_nil
      | some items =>
        simp only
        split
        · exact List.sorted_nil
        · exact List.sorted_insertionSort tagRel _
    · intro p hp
      unfold EventCommon.tags at hp
      cases raw with
      | none => simp at hp
      | some items =>
        simp only at hp
        split at hp
        · simp at hp
        · have hp2 : p ∈ ((items.filter (fun i => !(i == TagItem.null))).filterMap
              TagItem.pairOf).filter (fun p => p.1.isSome && p.2.isSome) :=
            (List.perm_insertionSort tagRel _).mem_iff.mp hp
          have hpred := List.of_mem_filter hp2
          simp only [Bool.and_eq_true] at hpred
          obtain ⟨h1, h2⟩ := hpred
          exact ⟨Option.isSome_iff_ne_none.mp h1, Option.isSome_iff_ne_none.mp h2⟩
  · intro keys values
    unfold SnubaEvent.tags
    cases keys with
    | none => exact List.sorted_nil
    | some ks =>
      cases values with
      | none => exact List.sorted_nil
      | some vs =>
        simp only
        split
        · exact List.sorted_nil
        · split
          · exact List.sorted_insertionSort tagRel _
          · exact List.sorted_nil

theorem initialDict_keys (e : EventM) : (initialDict e).map Prod.fst = firstClassKeys := rfl

theorem dictGet_eq_none (d : List (String × Val)) (k : String) :
    dictGet d k = none ↔ k ∉ d.map Prod.fst := by
  induction d with
  | nil => simp [dictGet]
  | cons kv rest ih =>
    obtain ⟨k2, v⟩ := kv
    simp only [dictGet, List.map_cons, List.mem_cons]
    by_cases h : k2 = k
    · simp [h]
    · simp [h, ih, Ne.symm h]

theorem addRemaining_keys (items : List (String × Val)) :
    ∀ (d r : List (String × Val)),
    (items.map Prod.fst).Nodup →
    addRemaining d items = some r →
    r.map Prod.fst
      = d.map Prod.fst
        ++ (items.map Prod.fst).filter (fun x => !(decide (x ∈ d.map Prod.fst))) := by
  induction items with
  | nil =>
    intro d r _ h
    simp only [addRemaining, Option.some.injEq] at h
    subst h
    simp
  | cons kv rest ih =>
    obtain ⟨k, v⟩ := kv
    intro d r hnd h
    simp only [List.map_cons, List.nodup_cons] at hnd
    obtain ⟨hk, hrest⟩ := hnd
    simp only [addRemaining] at h
    by_cases hmem : k ∈ d.map Prod.fst
    · rw [if_pos hmem] at h
      have hkeys := ih d r hrest h
      rw [hkeys]
      simp only [List.map_cons]
      rw [List.filter_cons]
      simp [hmem]
    · rw [if_neg hmem] at h
      have step : ∃ v2, addRemaining (d ++ [(k, v2)]) rest = some r := by
        by_cases hsdk : k = "sdk"
        · rw [if_pos hsdk] at h
          cases hv : procSdk v with
          | none => rw [hv] at h; exact absurd h (by simp)
          | some v2 => rw [hv] at h; exact ⟨v2, h⟩
        · rw [if_neg hsdk] at h
          exact ⟨v, h⟩
      obtain ⟨v2, h2⟩ := step
      have hkeys := ih (d ++ [(k, v2)]) r hrest h2
      rw [hkeys]
      have hfc : (rest.map Prod.fst).filter
            (fun x => !(decide (x ∈ (d ++ [(k, v2)]).map Prod.fst)))
          = (rest.map Prod.fst).filter (fun x => !(decide (x ∈ d.map Prod.fst))) := by
        apply List.filter_congr
        intro x hx
        have hxk : x ≠ k := fun e => hk (e ▸ hx)
        simp [List.mem_append, hxk]
      rw [hfc]
      simp only [List.map_append, List.map_cons, List.map_nil]
      rw [List.filter_cons]
      simp [hmem]

theorem addRemaining_subset (items : List (String × Val)) :
    ∀ d r, addRemaining d items = some r → ∀ x ∈ d, x ∈ r := by
  induction items with
  | nil =>
    intro d r h x hx
    simp only [addRemaining, Option.some.injEq] at h
    subst h
    exact hx
  | cons kv rest ih =>
    obtain ⟨k, v⟩ := kv
    intro d r h x hx
    simp only [addRemaining] at h
    by_cases hmem : k ∈ d.map Prod.fst
    · rw [if_pos hmem] at h
      exact ih d r h x hx
    · rw [if_neg hmem] at h
      by_cases hsdk : k = "sdk"
      · rw [if_pos hsdk] at h
        cases hv : procSdk v with
        | none => rw [hv] at h; exact absurd h (by simp)
        | some v2 =>
          rw [hv] at h
          exact ih _ r h x (List.mem_append_left _ hx)
      · rw [if_neg hsdk] at h
        exact ih _ r h x (List.mem_append_left _ hx)

theorem addRemaining_sdk_mem (items : List (String × Val)) :
    ∀ d r kvs, addRemaining d items = some r →
    ("sdk", Val.obj kvs) ∈ items →
    (items.map Prod.fst).Nodup →
    "sdk" ∉ d.map Prod.fst →
    ("sdk", Val.obj (kvs.filter (fun q => !(q.1 == "client_ip")))) ∈ r := by
  induction items with
  | nil =>
    intro d r kvs _ hm
    simp at hm
  | cons kv rest ih =>
    obtain ⟨k, v⟩ := kv
    intro d r kvs h hm hnd hds
    simp only [List.map_cons, List.nodup_cons] at hnd
    obtain ⟨hk, hrest⟩ := hnd
    simp only [addRemaining] at h
    rcases List.mem_cons.mp hm with heq | hm2
    · cases heq
      rw [if_neg hds, if_pos rfl] at h
      have hv : procSdk (Val.obj kvs)
          = some (Val.obj (kvs.filter (fun q => !(q.1 == "client_ip")))) := rfl
      rw [hv] at h
      exact addRemaining_subset rest _ r h _
        (List.mem_append_right _ (List.mem_singleton.mpr rfl))
    · by_cases hmem : k ∈ d.map Prod.fst
      · rw [if_pos hmem] at h
        exact ih d r kvs h hm2 hrest hds
      · rw [if_neg hmem] at h
        have hksdk : k ≠ "sdk" := by
          intro e
          subst e
          exact hk (by simpa using List.mem_map_of_mem Prod.fst hm2)
        rw [if_neg hksdk] at h
        apply ih _ r kvs h hm2 hrest
        simp [List.mem_append, hds, Ne.symm hksdk]

theorem addRemaining_sdk_stripped (items : List (String × Val)) :
    ∀ d r, addRemaining d items = some r →
    (∀ p ∈ d, p.1 = "sdk" → ∀ kvs, p.2 = Val.obj kvs → ∀ q ∈ kvs, q.1 ≠ "client_ip") →
    (∀ p ∈ r, p.1 = "sdk" → ∀ kvs, p.2 = Val.obj kvs → ∀ q ∈ kvs, q.1 ≠ "client_ip") := by
  induction items with
  | nil =>
    intro d r h hd
    simp only [addRemaining, Option.some.injEq] at h
    subst h
    exact hd
  | cons kv rest ih =>
    obtain ⟨k, v⟩ := kv
    intro d r h hd
    simp only [addRemaining] at h
    by_cases hmem : k ∈ d.map Prod.fst
    · rw [if_pos hmem] at h
      exact ih d r h hd
    · rw [if_neg hmem] at h
      by_cases hsdk : k = "sdk"
      · rw [if_pos hsdk] at h
        cases hv : procSdk v with
        | none => rw [hv] at h; exact absurd h (by simp)
        | some v2 =>
          rw [hv] at h
          apply ih _ r h
          intro p hp hp1 kvs hp2 q hq
          rcases List.mem_append.mp hp with hp | hp
          · exact hd p hp hp1 kvs hp2 q hq
          · have hpe : p = (k, v2) := by simpa using hp
            subst hpe
            cases v with
            | obj kvs0 =>
              simp only [procSdk, Option.some.injEq] at hv
              rw [← hv] at hp2
              simp only at hp2
              have hkvs : kvs = kvs0.filter (fun q => !(q.1 == "client_ip")) := by
                cases hp2
                rfl
              rw [hkvs] at hq
              have := List.of_mem_filter hq
              simpa using this
            | null => simp [procSdk] at hv
            | str s => simp [procSdk] at hv
            | num n => simp [procSdk] at hv
            | arr l => simp [procSdk] at hv
      · rw [if_neg hsdk] at h
        apply ih _ r h
        intro p hp hp1 kvs hp2 q hq
        rcases List.mem_append.mp hp with hp | hp
        · exact hd p hp hp1 kvs hp2 q hq
        · have hpe : p = (k, v) := by simpa using hp
          subst hpe
          exact absurd hp1 hsdk

theorem odSet_keys (d : List (String × Val)) (k : String) (v : Val) :
    (odSet d k v).map Prod.fst
      = if k ∈ d.map Prod.fst then d.map Prod.fst else d.map Prod.fst ++ [k] := by
  unfold odSet
  by_cases hmem : k ∈ d.map Prod.fst
  · rw [if_pos hmem, if_pos hmem, List.map_map]
    apply List.map_congr_left
    intro p _
    by_cases hpk : p.1 = k
    · simp [hpk]
    · simp [hpk]
  · rw [if_neg hmem, if_neg hmem]
    simp

theorem odSet_keys_cases (d : List (String × Val)) (k : String) (v : Val) :
    ∃ ex, (odSet d k v).map Prod.fst = d.map Prod.fst ++ ex ∧ (ex = [] ∨ ex = [k]) := by
  rw [odSet_keys]
  by_cases hmem : k ∈ d.map Prod.fst
  · exact ⟨[], by rw [if_pos hmem]; simp, Or.inl rfl⟩
  · exact ⟨[k], by rw [if_neg hmem], Or.inr rfl⟩

theorem odSet_sdkOk (d : List (String × Val)) (k : String) (v : Val) (hk : k ≠ "sdk")
    (hd : ∀ p ∈ d, p.1 = "sdk" → ∀ kvs, p.2 = Val.obj kvs → ∀ q ∈ kvs, q.1 ≠ "client_ip") :
    ∀ p ∈ odSet d k v, p.1 = "sdk" → ∀ kvs, p.2 = Val.obj kvs → ∀ q ∈ kvs, q.1 ≠ "client_ip" := by
  intro p hp
  unfold odSet at hp
  by_cases hmem : k ∈ d.map Prod.fst
  · rw [if_pos hmem] at hp
    obtain ⟨p0, hp0, hpe⟩ := List.mem_map.mp hp
    by_cases hpk : p0.1 = k
    · rw [if_pos hpk] at hpe
      intro hp1
      rw [← hpe] at hp1
      exact absurd hp1 hk
    · rw [if_neg hpk] at hpe
      subst hpe
      exact hd p0 hp0
  · rw [if_neg hmem] at hp
    rcases List.mem_append.mp hp with hp | hp
    · exact hd p hp
    · have hpe : p = (k, v) := by simpa using hp
      subst hpe
      intro hp1
      exact absurd hp1 hk

theorem odSet_mem_of_ne (d : List (String × Val)) (k : String) (v : Val)
    (p : String × Val) (hp : p ∈ d) (hne : p.1 ≠ k) : p ∈ odSet d k v := by
  unfold odSet
  by_cases hmem : k ∈ d.map Prod.fst
  · rw [if_pos hmem]
    have hmm := List.mem_map_of_mem (fun q => if q.1 = k then (k, v) else q) hp
    simp only [if_neg hne] at hmm
    exact hmm
  · rw [if_neg hmem]
    exact List.mem_append_left _ hp

theorem culpritStep_keys (d : List (String × Val)) (c : Val) :
    ∃ ex, (culpritStep d c).map Prod.fst = d.map Prod.fst ++ ex
      ∧ (ex = [] ∨ ex = ["culprit"]) := by
  unfold culpritStep
  cases hd : dictGet d "culprit" with
  | none =>
    have hmem : "culprit" ∉ d.map Prod.fst := (dictGet_eq_none d "culprit").mp hd
    exact ⟨["culprit"], by rw [odSet_keys, if_neg hmem], Or.inr rfl⟩
  | some v =>
    have hmem : "culprit" ∈ d.map Prod.fst := by
      by_contra hc
      rw [← dictGet_eq_none d "culprit"] at hc
      rw [hd] at hc
      exact Option.noConfusion hc
    cases v with
    | null =>
      exact ⟨[], by rw [odSet_keys, if_pos hmem]; simp, Or.inl rfl⟩
    | str s => exact ⟨[], by simp, Or.inl rfl⟩
    | num n => exact ⟨[], by simp, Or.inl rfl⟩
    | arr l => exact ⟨[], by simp, Or.inl rfl⟩
    | obj l => exact ⟨[], by simp, Or.inl rfl⟩

theorem culpritStep_sdkOk (d : List (String × Val)) (c : Val)
    (hd : ∀ p ∈ d, p.1 = "sdk" → ∀ kvs, p.2 = Val.obj kvs → ∀ q ∈ kvs, q.1 ≠ "client_ip") :
    ∀ p ∈ culpritStep d c, p.1 = "sdk" → ∀ kvs, p.2 = Val.obj kvs →
      ∀ q ∈ kvs, q.1 ≠ "client_ip" := by
  unfold culpritStep
  cases dictGet d "culprit" with
  | none => exact odSet_sdkOk d "culprit" c (by decide) hd
  | some v =>
    cases v with
    | null => exact odSet_sdkOk d "culprit" c (by decide) hd
    | str s => exact hd
    | num n => exact hd
    | arr l => exact hd
    | obj l => exact hd

theorem culpritStep_mem_of_ne (d : List (String × Val)) (c : Val)
    (p : String × Val) (hp : p ∈ d) (hne : p.1 ≠ "culprit") : p ∈ culpritStep d c := by
  unfold culpritStep
  cases dictGet d "culprit" with
  | none => exact odSet_mem_of_ne d "culprit" c p hp hne
  | some v =>
    cases v with
    | null => exact odSet_mem_of_ne d "culprit" c p hp hne
    | str s => exact hp
    | num n => exact hp
    | arr l => exact hp
    | obj l => exact hp

/-- C5: as_dict strips the client_ip sub-field from the serialized sdk
sub-object even when present in the raw payload (no sdk entry of the
output carries a client_ip sub-field, and the payload sdk object
reappears with exactly that sub-field dropped), and the output keys are
the nine first-class fields in fixed order, then the remaining payload
keys in ascending sorted order excluding first-class duplicates, then
at most the appended culprit, title and location entries. -/
theorem as_dict_order_and_sdk_strip (e : EventM)
    (hnd : (e.data.map Prod.fst).Nodup)
    (r : List (String × Val)) (hr : EventCommon.as_dict e = some r) :
    (∀ p ∈ r, p.1 = "sdk" → ∀ kvs, p.2 = Val.obj kvs → ∀ q ∈ kvs, q.1 ≠ "client_ip")
    ∧ (∀ kvs, ("sdk", Val.obj kvs) ∈ e.data →
        ("sdk", Val.obj (kvs.filter (fun q => !(q.1 == "client_ip")))) ∈ r)
    ∧ (∃ extras, r.map Prod.fst = firstClassKeys ++ remainingKeys e ++ extras
        ∧ extras.Sublist ["culprit", "title", "location"])
    ∧ (remainingKeys e).Pairwise (fun a b => listLexLE a.data b.data = true) := by
  have hperm : (sortedItems e.data).Perm e.data := List.perm_insertionSort keyRel e.data
  have hnd2 : ((sortedItems e.data).map Prod.fst).Nodup :=
    ((hperm.map Prod.fst).nodup_iff).mpr hnd
  unfold EventCommon.as_dict at hr
  cases h1 : addRemaining (initialDict e) (sortedItems e.data) with
  | none =>
    rw [h1] at hr
    simp at hr
  | some d1 =>
    rw [h1] at hr
    simp only [Option.some.injEq] at hr
    subst hr
    have hd0 : ∀ p ∈ initialDict e, p.1 = "sdk" → ∀ kvs, p.2 = Val.obj kvs →
        ∀ q ∈ kvs, q.1 ≠ "client_ip" := by
      intro p hp h1p
      simp only [initialDict, List.mem_cons, List.not_mem_nil, or_false] at hp
      rcases hp with rfl | rfl | rfl | rfl | rfl | rfl | rfl | rfl | rfl
      all_goals simp at h1p
    have hs1 := addRemaining_sdk_stripped (sortedItems e.data) (initialDict e) d1 h1 hd0
    have hs2 := culpritStep_sdkOk d1 e.group_culprit hs1
    have hs3 := odSet_sdkOk _ "title" e.titleV (by decide) hs2
    have hs4 := odSet_sdkOk _ "location" e.locationV (by decide) hs3
    have hpos : ∀ kvs, ("sdk", Val.obj kvs) ∈ e.data →
        ("sdk", Val.obj (kvs.filter (fun q => !(q.1 == "client_ip"))))
          ∈ odSet (odSet (culpritStep d1 e.group_culprit) "title" e.titleV)
              "location" e.locationV := by
      intro kvs hm
      have hm1 : ("sdk", Val.obj kvs) ∈ sortedItems e.data := hperm.mem_iff.mpr hm
      have hds : "sdk" ∉ (initialDict e).map Prod.fst := by
        rw [initialDict_keys]
        decide
      have hd1 := addRemaining_sdk_mem (sortedItems e.data) (initialDict e) d1 kvs h1 hm1 hnd2 hds
      have hd2 := culpritStep_mem_of_ne d1 e.group_culprit _ hd1
        (by decide : ("sdk" : String) ≠ "culprit")
      have hd3 := odSet_mem_of_ne _ "title" e.titleV _ hd2
        (by decide : ("sdk" : String) ≠ "title")
      exact odSet_mem_of_ne _ "location" e.locationV _ hd3
        (by decide : ("sdk" : String) ≠ "location")
    have hk1 := addRemaining_keys (sortedItems e.data) (initialDict e) d1 hnd2 h1
    rw [initialDict_keys] at hk1
    have hk1r : d1.map Prod.fst = firstClassKeys ++ remainingKeys e := by
      rw [remainingKeys]
      exact hk1
    obtain ⟨ex1, he1, hex1⟩ := culpritStep_keys d1 e.group_culprit
    obtain ⟨ex2, he2, hex2⟩ :=
      odSet_keys_cases (culpritStep d1 e.group_culprit) "title" e.titleV
    obtain ⟨ex3, he3, hex3⟩ :=
      odSet_keys_cases (odSet (culpritStep d1 e.group_culprit) "title" e.titleV)
        "location" e.locationV
    refine ⟨hs4, hpos, ⟨ex1 ++ ex2 ++ ex3, ?_, ?_⟩, ?_⟩
    · rw [he3, he2, he1, hk1r]
      simp [List.append_assoc]
    · rcases hex1 with rfl | rfl <;> rcases hex2 with rfl | rfl <;>
        rcases hex3 with rfl | rfl <;> decide
    · haveI : IsTotal (String × Val) keyRel :=
        ⟨fun p q => listLexLE_total p.1.data q.1.data⟩
      haveI : IsTrans (String × Val) keyRel :=
        ⟨fun p q r0 => listLexLE_trans p.1.data q.1.data r0.1.data⟩
      unfold remainingKeys sortedItems
      apply List.Pairwise.filter
      exact List.Pairwise.map Prod.fst (fun _ _ h => h)
        (List.sorted_insertionSort keyRel e.data)

theorem as_dict_order_and_sdk_strip_witness :
    (∀ p ∈ (EventCommon.as_dict sampleEvent).getD [], p.1 = "sdk" →
        ∀ kvs, p.2 = Val.obj kvs → ∀ q ∈ kvs, q.1 ≠ "client_ip")
    ∧ (∀ kvs, ("sdk", Val.obj kvs) ∈ sampleEvent.data →
        ("sdk", Val.obj (kvs.filter (fun q => !(q.1 == "client_ip"))))
          ∈ (EventCommon.as_dict sampleEvent).getD [])
    ∧ (∃ extras, ((EventCommon.as_dict sampleEvent).getD []).map Prod.fst
          = firstClassKeys ++ remainingKeys sampleEvent ++ extras
        ∧ extras.Sublist ["culprit", "title", "location"])
    ∧ (remainingKeys sampleEvent).Pairwise (fun a b => listLexLE a.data b.data = true) :=
  as_dict_order_and_sdk_strip sampleEvent (by decide)
    ((EventCommon.as_dict sampleEvent).getD []) rfl
